import Mathlib

/-!
Shallow embedding of the settlement and ledger core of the eggma prediction-market
repository, together with theorems settling the frozen claims about it.

Sources embedded:
* `market/models.py` — `Market` volume fields and the probability / odds properties.
* `predict/models.py` — `Bet` and `Transaction` records.
* `acounts/models.py` — `CustomUser.add_xp` (balance, xp, level).
* `market/views.py` — `place_bet` and `wallet_withdraw`.
* `market/payment_utils.py` — `_handle_charge_confirmed` (deposit completion).
* `market/utils.py` — `PriceTargetMarketService.check_target_reached` and
  `PriceTargetMarketService.resolve_target_market`.

Monetary quantities are embedded as exact rationals; Python `Decimal` arithmetic at the
precision exercised here is exact, so no rounding model is needed.  HTTP-level failures
(JSON error responses, redirects with a message) leave the database untouched in the
source because every validation precedes the `transaction.atomic()` block; they are
embedded as `Except.error` results carrying the error message.
-/

namespace Eggma

abbrev UserId := Nat

/-- Outcome keys of a market, from `predict/models.py` `Bet.OUTCOME_CHOICES`. -/
inductive Outcome
  | UP
  | DOWN
  | FLAT
  deriving DecidableEq

/-- Market types, from `market/models.py` `Market.MARKET_TYPES`. -/
inductive MarketType
  | price
  | event
  | quick
  | target
  deriving DecidableEq

/-- Market statuses, from `market/models.py` `Market.STATUS_CHOICES`. -/
inductive MarketStatus
  | active
  | closed
  | resolved
  | cancelled
  deriving DecidableEq

/-- Bet types, from `predict/models.py` `Bet.BET_TYPES`.  In `place_bet` the request
field `bet_type` is compared against the string `quick_predict`; any other value takes
the regular branch, so two constructors are faithful. -/
inductive BetType
  | regular
  | quick
  deriving DecidableEq

/-- Bet statuses, from `predict/models.py` `Bet.STATUS_CHOICES`. -/
inductive BetStatus
  | pending
  | active
  | won
  | lost
  | refunded
  deriving DecidableEq

/-- Transaction types, from `predict/models.py` `Transaction.TYPE_CHOICES`. -/
inductive TxnType
  | deposit
  | withdrawal
  | bet
  | payout
  | refund
  | fee
  | bonus
  deriving DecidableEq

/-- Transaction statuses, from `predict/models.py` `Transaction.STATUS_CHOICES`. -/
inductive TxnStatus
  | pending
  | completed
  | failed
  | cancelled
  deriving DecidableEq

/-- Predict-to-earn timeframes accepted by `place_bet` (`1m`, `2m`, `3m`); `other`
stands for any further string, which the quick-predict validation rejects. -/
inductive Timeframe
  | m1
  | m2
  | m3
  | other
  deriving DecidableEq

/-- The balance-bearing part of `acounts/models.py` `CustomUser`. -/
structure User where
  balance : ℚ
  xp : ℤ
  level : ℤ
  deriving DecidableEq

/-- `market/models.py` `Market`, restricted to the fields the settlement core reads or
writes.  `highestPriceReached` is an `Option` because the column is nullable and the
source tests it for falsiness (`not market.highest_price_reached`). -/
structure Market where
  marketType : MarketType
  status : MarketStatus
  minBet : ℚ
  maxBet : ℚ
  resolutionDate : ℤ
  resolvedAt : Option ℤ
  winningOutcome : Option Outcome
  totalVolume : ℚ
  upVolume : ℚ
  downVolume : ℚ
  flatVolume : ℚ
  currentRound : ℤ
  roundStartPrice : Option ℚ
  roundEndPrice : Option ℚ
  targetPrice : ℚ
  highestPriceReached : Option ℚ
  deriving DecidableEq

/-- `predict/models.py` `Bet`, restricted to the fields the core touches. -/
structure Bet where
  userId : UserId
  betType : BetType
  outcome : Outcome
  amount : ℚ
  oddsAtBet : ℚ
  potentialPayout : ℚ
  roundNumber : ℤ
  roundStartPrice : Option ℚ
  bstatus : BetStatus
  resolvedAt : Option ℤ
  actualPayout : Option ℚ
  deriving DecidableEq

/-- `predict/models.py` `Transaction` (the ledger entry), restricted to the
balance-accounting fields. -/
structure Txn where
  userId : UserId
  ttype : TxnType
  amount : ℚ
  balanceBefore : ℚ
  balanceAfter : ℚ
  tstatus : TxnStatus
  deriving DecidableEq

/-- Database state for one market: all user rows, the market row, its bets and the
ledger.  `txns` is kept in creation order. -/
structure St where
  users : UserId → User
  market : Market
  bets : List Bet
  txns : List Txn

/-! ## Odds derivation, from the `Market` properties in `market/models.py` -/

/-- `Market.up_probability`. -/
def Market.upProbability (m : Market) : ℚ :=
  if m.totalVolume = 0 then 33/100 else m.upVolume / m.totalVolume

/-- `Market.down_probability`. -/
def Market.downProbability (m : Market) : ℚ :=
  if m.totalVolume = 0 then 33/100 else m.downVolume / m.totalVolume

/-- `Market.flat_probability`. -/
def Market.flatProbability (m : Market) : ℚ :=
  if m.totalVolume = 0 then 34/100 else m.flatVolume / m.totalVolume

/-- `Market.up_odds`. -/
def Market.upOdds (m : Market) : ℚ :=
  let prob := m.upProbability
  if prob = 0 then 2 else min (1 / prob) 100

/-- `Market.down_odds`. -/
def Market.downOdds (m : Market) : ℚ :=
  let prob := m.downProbability
  if prob = 0 then 2 else min (1 / prob) 100

/-- `Market.flat_odds`. -/
def Market.flatOdds (m : Market) : ℚ :=
  let prob := m.flatProbability
  if prob = 0 then 3 else min (1 / prob) 100

/-- The per-outcome pooled volume (`outcome_volumes` in the spec wording). -/
def outcomeVolume (m : Market) : Outcome → ℚ
  | .UP => m.upVolume
  | .DOWN => m.downVolume
  | .FLAT => m.flatVolume

/-- The per-outcome probability property. -/
def outcomeProbability (m : Market) : Outcome → ℚ
  | .UP => m.upProbability
  | .DOWN => m.downProbability
  | .FLAT => m.flatProbability

/-- The per-outcome odds property, as read by the regular branch of `place_bet`. -/
def outcomeOdds (m : Market) : Outcome → ℚ
  | .UP => m.upOdds
  | .DOWN => m.downOdds
  | .FLAT => m.flatOdds

/-! ## `CustomUser.add_xp`, from `acounts/models.py` -/

/-- `CustomUser.add_xp`: adds xp, and on crossing `level * 600` below level 8 bumps the
level and credits a $10 level-up bonus directly to `balance` (no ledger entry). -/
def addXp (u : User) (amount : ℤ) : User :=
  let xp := u.xp + amount
  let nextLevelXp := u.level * 600
  if xp ≥ nextLevelXp ∧ u.level < 8 then
    { u with xp := xp, level := u.level + 1, balance := u.balance + 10 }
  else
    { u with xp := xp }

/-! ## `place_bet`, from `market/views.py` -/

/-- The quick-predict multiplier table in `place_bet`.  The source looks the timeframe
up with `multipliers.get(timeframe, multipliers['2m'])`, so an unrecognised timeframe
falls back to the 2m row (unreachable for quick bets, which validate the timeframe
first). -/
def quickMultiplier : Timeframe → Outcome → ℚ
  | .m1, .UP => 185/100
  | .m1, .FLAT => 45/10
  | .m1, .DOWN => 19/10
  | .m2, .UP => 195/100
  | .m2, .FLAT => 32/10
  | .m2, .DOWN => 198/100
  | .m3, .UP => 21/10
  | .m3, .FLAT => 28/10
  | .m3, .DOWN => 205/100
  | .other, .UP => 195/100
  | .other, .FLAT => 32/10
  | .other, .DOWN => 198/100

/-- `place_bet` from `market/views.py`.  Validation order follows the source: missing
amount (a zero `amount` is falsy in `all([...])`), quick-predict amount and timeframe
checks, the hardcoded $1.00 minimum for regular bets, the balance check, the
`status='active'` market lookup, and the one-active-quick-bet rule.  The source has no
`max_bet` check and no `resolution_date` check, so neither appears here.  All checks
precede the atomic block, so an error leaves the state untouched. -/
def placeBet (s : St) (uid : UserId) (outcome : Outcome) (amount : ℚ)
    (betType : BetType) (tf : Timeframe) : Except String St :=
  if amount = 0 then .error "Missing required fields"
  else if betType = .quick ∧ amount ≠ 1 then
    .error "Quick predict bets must be exactly $1.00"
  else if betType = .quick ∧ tf = .other then
    .error "Invalid predict timeframe"
  else if betType = .regular ∧ amount < 1 then
    .error "Minimum bet is $1.00"
  else if amount > (s.users uid).balance then
    .error "Insufficient balance"
  else if s.market.status ≠ .active then
    .error "Market not found"
  else if betType = .quick ∧
      s.bets.any (fun b => decide (b.userId = uid ∧ b.betType = .quick ∧ b.bstatus = .active)) then
    .error "You already have an active predict-to-earn bet on this market"
  else
    let odds := if betType = .quick then quickMultiplier tf outcome
                else outcomeOdds s.market outcome
    let potentialPayout := amount * odds
    let user := s.users uid
    let oldBalance := user.balance
    let newBalance := oldBalance - amount
    let bet : Bet :=
      { userId := uid, betType := betType, outcome := outcome, amount := amount,
        oddsAtBet := odds, potentialPayout := potentialPayout,
        roundNumber := s.market.currentRound, roundStartPrice := s.market.roundStartPrice,
        bstatus := .active, resolvedAt := none, actualPayout := none }
    let market' :=
      if betType = .regular then
        { s.market with
          totalVolume := s.market.totalVolume + amount,
          upVolume := if outcome = .UP then s.market.upVolume + amount else s.market.upVolume,
          downVolume := if outcome = .DOWN then s.market.downVolume + amount else s.market.downVolume,
          flatVolume := if outcome = .FLAT then s.market.flatVolume + amount else s.market.flatVolume }
      else s.market
    let txn : Txn :=
      { userId := uid, ttype := .bet, amount := -amount,
        balanceBefore := oldBalance, balanceAfter := newBalance, tstatus := .completed }
    let xpEarned : ℤ := if betType = .quick then 15 else min ⌊amount⌋ 50
    let user' := { user with balance := newBalance, xp := user.xp + xpEarned }
    .ok { s with
      users := fun i => if i = uid then user' else s.users i,
      market := market',
      bets := s.bets ++ [bet],
      txns := s.txns ++ [txn] }

/-! ## Deposit completion, from `market/payment_utils.py` `_handle_charge_confirmed` -/

/-- `_handle_charge_confirmed`: creates a completed deposit ledger entry (recording the
balance before and after the credit), credits the balance, then awards
`min(int(amount / 5), 200)` xp through `add_xp`. -/
def depositConfirmed (s : St) (uid : UserId) (amount : ℚ) : St :=
  let user := s.users uid
  let txn : Txn :=
    { userId := uid, ttype := .deposit, amount := amount,
      balanceBefore := user.balance, balanceAfter := user.balance + amount,
      tstatus := .completed }
  let user1 := { user with balance := user.balance + amount }
  let user2 := addXp user1 (min ⌊amount / 5⌋ 200)
  { s with
    users := fun i => if i = uid then user2 else s.users i,
    txns := s.txns ++ [txn] }

/-! ## Withdrawal, from `market/views.py` `wallet_withdraw` -/

/-- `wallet_withdraw`.  `addressOk` stands for the two address validations (non-empty
and `validate_address`); `sendOk` is the gateway result of `send_withdrawal`.  On
success the pending withdrawal entry is promoted to completed and a platform-fee entry
is written with `balance_before == balance_after`; on gateway failure the stake is
re-credited, the withdrawal entry is marked failed and a completed refund entry is
written.  Every error path precedes the atomic block and leaves the state untouched. -/
def walletWithdraw (s : St) (uid : UserId) (amount : ℚ) (minAmount : ℚ)
    (feePct : ℚ) (networkFee : ℚ) (addressOk : Bool) (sendOk : Bool) :
    Except String St :=
  if amount < minAmount then .error "Minimum withdrawal"
  else if (s.users uid).balance < amount then .error "Insufficient balance"
  else if ¬addressOk then .error "Invalid wallet address"
  else
    let platformFee := amount * feePct
    let totalFees := platformFee + networkFee
    let netAmount := amount - totalFees
    if netAmount ≤ 0 then .error "Amount too small after fees"
    else
      let user := s.users uid
      let user1 := { user with balance := user.balance - amount }
      if sendOk then
        let withdrawalTxn : Txn :=
          { userId := uid, ttype := .withdrawal, amount := -amount,
            balanceBefore := user1.balance + amount, balanceAfter := user1.balance,
            tstatus := .completed }
        let feeTxn : Txn :=
          { userId := uid, ttype := .fee, amount := platformFee,
            balanceBefore := user1.balance, balanceAfter := user1.balance,
            tstatus := .completed }
        .ok { s with
          users := fun i => if i = uid then user1 else s.users i,
          txns := s.txns ++ [withdrawalTxn, feeTxn] }
      else
        let user2 := { user1 with balance := user1.balance + amount }
        let withdrawalTxn : Txn :=
          { userId := uid, ttype := .withdrawal, amount := -amount,
            balanceBefore := user1.balance + amount, balanceAfter := user1.balance,
            tstatus := .failed }
        let refundTxn : Txn :=
          { userId := uid, ttype := .refund, amount := amount,
            balanceBefore := user2.balance - amount, balanceAfter := user2.balance,
            tstatus := .completed }
        .ok { s with
          users := fun i => if i = uid then user2 else s.users i,
          txns := s.txns ++ [withdrawalTxn, refundTxn] }

/-! ## Target-market settlement, from `market/utils.py` `PriceTargetMarketService` -/

/-- `check_target_reached`.  `feed` is the price returned by
`CryptoPriceService.get_crypto_prices()` for the market symbol (`none` when absent; the
source also treats a price of `0` as missing via `if not current_price`).  On a usable
price the high-water mark is raised when it is null, zero or exceeded, and the reached
flag compares the (possibly updated) high-water mark against the target.  On a missing
price the function returns `(false, None)` without touching the market.  The caller is
responsible for the market being of type `target` (the source raises `ValueError`
otherwise, checked by `resolveTargetMarket` before this point). -/
def checkTargetReached (m : Market) (feed : Option ℚ) : Market × Bool × Option ℚ :=
  match feed with
  | none => (m, false, none)
  | some p =>
    if p = 0 then (m, false, none)
    else
      let shouldUpdate : Bool :=
        match m.highestPriceReached with
        | none => true
        | some h => decide (h = 0) || decide (p > h)
      let m' := if shouldUpdate then { m with highestPriceReached := some p } else m
      let reached : Bool := decide (m'.highestPriceReached.getD 0 ≥ m.targetPrice)
      (m', reached, some p)

/-- The winner loop of `resolve_target_market`: walks the bets in queryset order and,
for each bet with the winning outcome and status `active`, computes the pool-share
payout (falling back to `potential_payout` on an empty winning pool), marks the bet
won, credits the bettor, appends the completed payout ledger entry and awards 50 xp via
`add_xp`.  Other bets pass through untouched. -/
def payWinners (winning : Outcome) (winningPool totalPool : ℚ) (now : ℤ) :
    List Bet → (UserId → User) → List Txn → List Bet × (UserId → User) × List Txn
  | [], users, txns => ([], users, txns)
  | b :: rest, users, txns =>
    if b.bstatus = .active ∧ b.outcome = winning then
      let payout := if winningPool > 0 then b.amount / winningPool * totalPool
                    else b.potentialPayout
      let b' := { b with actualPayout := some payout, bstatus := .won, resolvedAt := some now }
      let u := users b.userId
      let oldBalance := u.balance
      let u1 := { u with balance := u.balance + payout }
      let txn : Txn :=
        { userId := b.userId, ttype := .payout, amount := payout,
          balanceBefore := oldBalance, balanceAfter := u1.balance, tstatus := .completed }
      let u2 := addXp u1 50
      let users' := fun i => if i = b.userId then u2 else users i
      let step := payWinners winning winningPool totalPool now rest users' (txns ++ [txn])
      (b' :: step.1, step.2)
    else
      let step := payWinners winning winningPool totalPool now rest users txns
      (b :: step.1, step.2)

/-- The per-bet action of the loser loop of `resolve_target_market`: a still-active
bet on a non-winning outcome is marked lost with zero payout (no ledger entry, no
balance change); any other bet is untouched. -/
def markLoserBet (winning : Outcome) (now : ℤ) (b : Bet) : Bet :=
  if b.bstatus = .active ∧ b.outcome ≠ winning then
    { b with bstatus := .lost, actualPayout := some 0, resolvedAt := some now }
  else b

/-- The loser loop of `resolve_target_market` over the whole bet list. -/
def markLosers (winning : Outcome) (now : ℤ) (bets : List Bet) : List Bet :=
  bets.map (markLoserBet winning now)

/-- `resolve_target_market`.  A non-active market logs a warning and returns
unchanged; a non-target market raises `ValueError`.  Otherwise the outcome is taken
from a fresh `check_target_reached` call, the market row is saved as resolved first,
the pools are snapshotted, winners are paid and losers are marked. -/
def resolveTargetMarket (s : St) (feed : Option ℚ) (now : ℤ) : Except String St :=
  if s.market.status ≠ .active then .ok s
  else if s.market.marketType ≠ .target then
    .error "Market is not a price target market"
  else
    let c := checkTargetReached s.market feed
    let winning : Outcome := if c.2.1 then .UP else .DOWN
    let m2 := { c.1 with
      status := .resolved, winningOutcome := some winning,
      resolvedAt := some now, roundEndPrice := c.2.2 }
    let totalPool := m2.totalVolume
    let winningPool := if winning = .UP then m2.upVolume else m2.downVolume
    let step := payWinners winning winningPool totalPool now s.bets s.users s.txns
    .ok { users := step.2.1, market := m2, bets := markLosers winning now step.1,
          txns := step.2.2 }

/-- The winner loop of `resolve_target_market` interrupted after `k` winning bets have
been paid (modelling a crash mid-settlement): identical to `payWinners` except that
once the budget `k` is exhausted the remaining bets are left untouched.  The budget is
consumed only by bets the loop body acts on. -/
def payWinnersUpTo (winning : Outcome) (winningPool totalPool : ℚ) (now : ℤ) :
    Nat → List Bet → (UserId → User) → List Txn → List Bet × (UserId → User) × List Txn
  | _, [], users, txns => ([], users, txns)
  | 0, bets, users, txns => (bets, users, txns)
  | k + 1, b :: rest, users, txns =>
    if b.bstatus = .active ∧ b.outcome = winning then
      let payout := if winningPool > 0 then b.amount / winningPool * totalPool
                    else b.potentialPayout
      let b' := { b with actualPayout := some payout, bstatus := .won, resolvedAt := some now }
      let u := users b.userId
      let oldBalance := u.balance
      let u1 := { u with balance := u.balance + payout }
      let txn : Txn :=
        { userId := b.userId, ttype := .payout, amount := payout,
          balanceBefore := oldBalance, balanceAfter := u1.balance, tstatus := .completed }
      let u2 := addXp u1 50
      let users' := fun i => if i = b.userId then u2 else users i
      let step := payWinnersUpTo winning winningPool totalPool now k rest users' (txns ++ [txn])
      (b' :: step.1, step.2)
    else
      let step := payWinnersUpTo winning winningPool totalPool now (k + 1) rest users txns
      (b :: step.1, step.2)

/-- `resolve_target_market` interrupted mid-settlement: the market row has already been
saved as resolved (the source saves it before the bet loops), the first `k` winning
bets have been paid, and the process dies before the remaining winners and the loser
loop.  Used to examine re-runnability after a partial settlement. -/
def resolveTargetMarketUpTo (s : St) (feed : Option ℚ) (now : ℤ) (k : Nat) :
    Except String St :=
  if s.market.status ≠ .active then .ok s
  else if s.market.marketType ≠ .target then
    .error "Market is not a price target market"
  else
    let c := checkTargetReached s.market feed
    let winning : Outcome := if c.2.1 then .UP else .DOWN
    let m2 := { c.1 with
      status := .resolved, winningOutcome := some winning,
      resolvedAt := some now, roundEndPrice := c.2.2 }
    let totalPool := m2.totalVolume
    let winningPool := if winning = .UP then m2.upVolume else m2.downVolume
    let step := payWinnersUpTo winning winningPool totalPool now k s.bets s.users s.txns
    .ok { users := step.2.1, market := m2, bets := step.1, txns := step.2.2 }

/-! ## Operation traces and ledger replay -/

/-- One core operation applied to the state.  HTTP-level rejections leave the database
untouched in the source, so an `Except.error` result is executed as the identity. -/
inductive Op
  | deposit (uid : UserId) (amount : ℚ)
  | bet (uid : UserId) (outcome : Outcome) (amount : ℚ) (betType : BetType) (tf : Timeframe)
  | resolve (feed : Option ℚ) (now : ℤ)

/-- Execute one operation. -/
def execOp (s : St) : Op → St
  | .deposit uid amount => depositConfirmed s uid amount
  | .bet uid o amount bt tf =>
    match placeBet s uid o amount bt tf with
    | .ok s' => s'
    | .error _ => s
  | .resolve feed now =>
    match resolveTargetMarket s feed now with
    | .ok s' => s'
    | .error _ => s

/-- Execute a list of operations from left to right. -/
def execTrace (s : St) : List Op → St
  | [] => s
  | op :: rest => execTrace (execOp s op) rest

/-- A fresh database: every account starts at balance 0, xp 0, level 1 (the
`CustomUser` field defaults), with no bets and an empty ledger. -/
def initSt (m : Market) : St :=
  { users := fun _ => { balance := 0, xp := 0, level := 1 },
    market := m, bets := [], txns := [] }

/-- Replaying a user's completed ledger entries in creation order from balance 0: the
sum of the signed amounts of that user's completed transactions. -/
def replayBalance (txns : List Txn) (uid : UserId) : ℚ :=
  ((txns.filter fun t => decide (t.userId = uid ∧ t.tstatus = .completed)).map
    Txn.amount).sum

/-- The per-entry ledger invariant claimed by the spec. -/
def txnBalanced (t : Txn) : Prop :=
  t.balanceAfter = t.balanceBefore + t.amount

/-- Sum of `actual_payout` over the bets marked won. -/
def wonPayoutSum (bets : List Bet) : ℚ :=
  ((bets.filter fun b => decide (b.bstatus = .won)).map
    (fun b => b.actualPayout.getD 0)).sum

/-- Sum of the stakes of the still-active bets on a given outcome. -/
def activeOutcomeAmountSum (bets : List Bet) (w : Outcome) : ℚ :=
  ((bets.filter fun b => decide (b.bstatus = .active ∧ b.outcome = w)).map
    Bet.amount).sum

/-! ## Structural lemmas about the settlement loops -/

/-- The per-bet action of the winner loop, for reasoning about `payWinners`. -/
def payBet (winning : Outcome) (winningPool totalPool : ℚ) (now : ℤ) (b : Bet) : Bet :=
  if b.bstatus = .active ∧ b.outcome = winning then
    { b with
      actualPayout := some (if winningPool > 0 then b.amount / winningPool * totalPool
                            else b.potentialPayout),
      bstatus := .won, resolvedAt := some now }
  else b

theorem payWinners_bets (w : Outcome) (wp tp : ℚ) (now : ℤ) (bets : List Bet) :
    ∀ (users : UserId → User) (txns : List Txn),
      (payWinners w wp tp now bets users txns).1 = bets.map (payBet w wp tp now) := by
  induction bets with
  | nil => intro users txns; rfl
  | cons b rest ih =>
    intro users txns
    by_cases h : b.bstatus = .active ∧ b.outcome = w
    · simp only [payWinners, if_pos h, payBet, List.map_cons, ih]
    · simp only [payWinners, if_neg h, payBet, List.map_cons, ih]

theorem checkTargetReached_market (m : Market) (feed : Option ℚ) :
    ∃ hp, (checkTargetReached m feed).1 = { m with highestPriceReached := hp } := by
  unfold checkTargetReached
  cases feed with
  | none => exact ⟨m.highestPriceReached, rfl⟩
  | some p =>
    by_cases hq : p = 0
    · simp only [if_pos hq]
      exact ⟨m.highestPriceReached, rfl⟩
    · simp only [if_neg hq]
      split
      · exact ⟨some p, rfl⟩
      · exact ⟨m.highestPriceReached, rfl⟩

/-- Characterisation of a successful resolution of an active target market: the
outcome is taken from the fresh `check_target_reached` call, the market row is saved
resolved, and the bet list is the original list transformed by the winner and loser
actions, with the pools snapshotted from the market row. -/
theorem resolveTargetMarket_ok_spec (s : St) (feed : Option ℚ) (now : ℤ)
    (hact : s.market.status = .active) (ht : s.market.marketType = .target) :
    ∃ w hp, w = (if (checkTargetReached s.market feed).2.1 then Outcome.UP else Outcome.DOWN) ∧
      resolveTargetMarket s feed now = .ok
        { users := (payWinners w (outcomeVolume s.market w) s.market.totalVolume now
            s.bets s.users s.txns).2.1,
          market := { s.market with
            highestPriceReached := hp,
            status := .resolved,
            winningOutcome := some w,
            resolvedAt := some now,
            roundEndPrice := (checkTargetReached s.market feed).2.2 },
          bets := markLosers w now
            (s.bets.map (payBet w (outcomeVolume s.market w) s.market.totalVolume now)),
          txns := (payWinners w (outcomeVolume s.market w) s.market.totalVolume now
            s.bets s.users s.txns).2.2 } := by
  obtain ⟨hp, hm⟩ := checkTargetReached_market s.market feed
  refine ⟨_, hp, rfl, ?_⟩
  unfold resolveTargetMarket
  rw [if_neg (by simp [hact]), if_neg (by simp [ht])]
  simp only [hm, payWinners_bets, markLosers]
  cases hc : (checkTargetReached s.market feed).2.1 <;>
    simp [hc, outcomeVolume]

/-! ## Concrete fixtures used by witnesses and counterexamples -/

/-- A freshly created active price-target market (field values as produced by
`create_target_market`: bounds $1/$10000, target $70000, opened at $69000). -/
def baseTargetMarket : Market :=
  { marketType := .target, status := .active, minBet := 1, maxBet := 10000,
    resolutionDate := 100, resolvedAt := none, winningOutcome := none,
    totalVolume := 0, upVolume := 0, downVolume := 0, flatVolume := 0,
    currentRound := 1, roundStartPrice := some 69000, roundEndPrice := none,
    targetPrice := 70000, highestPriceReached := some 69000 }

/-- An active regular bet fixture. -/
def mkActiveBet (uid : UserId) (o : Outcome) (amount odds : ℚ) : Bet :=
  { userId := uid, betType := .regular, outcome := o, amount := amount,
    oddsAtBet := odds, potentialPayout := amount * odds, roundNumber := 1,
    roundStartPrice := some 69000, bstatus := .active, resolvedAt := none,
    actualPayout := none }

/-- A user fixture at level 1 with no xp. -/
def mkUser (balance : ℚ) : User := { balance := balance, xp := 0, level := 1 }

/-- The scenario of the spec's example 3: $110 total pool, $40 on UP, $70 on DOWN,
target already touched ($71000 ≥ $70000), a $10 UP bet and a $30 UP bet active. -/
def c1State : St :=
  { users := fun _ => mkUser 0,
    market := { baseTargetMarket with
      totalVolume := 110, upVolume := 40, downVolume := 70,
      highestPriceReached := some 71000 },
    bets := [mkActiveBet 1 .UP 10 2, mkActiveBet 2 .UP 30 2],
    txns := [] }

/-- The state produced by resolving `c1State` at price 71000. -/
def c1Resolved : St :=
  match resolveTargetMarket c1State (some 71000) 7 with
  | .ok t => t
  | .error _ => c1State

/-! ## Claim C1 -/

/-- C1: a bet that was active on the winning outcome of a resolved target market
receives `actual_payout = (bet.amount / winning_pool) * total_pool`, where the total
pool is the market's `total_volume` and the winning pool the winning outcome's volume
snapshotted at resolution; when the winning pool is zero it receives the locked
`potential_payout` instead.  The bet is marked won. -/
theorem winning_bet_gets_pool_share (s : St) (feed : Option ℚ) (now : ℤ) (s' : St)
    (i : ℕ) (b : Bet)
    (hres : resolveTargetMarket s feed now = .ok s')
    (hact : s.market.status = .active)
    (hb : s.bets[i]? = some b)
    (hbact : b.bstatus = .active)
    (hout : s'.market.winningOutcome = some b.outcome) :
    s'.bets[i]? = some { b with
      bstatus := .won, resolvedAt := some now,
      actualPayout := some (if outcomeVolume s.market b.outcome > 0
        then b.amount / outcomeVolume s.market b.outcome * s.market.totalVolume
        else b.potentialPayout) } := by
  by_cases ht : s.market.marketType = .target
  · obtain ⟨w, hp, hwdef, hok⟩ := resolveTargetMarket_ok_spec s feed now hact ht
    rw [hres] at hok
    injection hok with hs'
    subst hs'
    have hw : w = b.outcome := by simpa using hout
    subst hw
    simp only [markLosers, List.map_map, List.getElem?_map, hb, Option.map_some]
    simp [payBet, markLoserBet, hbact]
  · unfold resolveTargetMarket at hres
    rw [if_neg (by simp [hact]), if_pos (by simp [ht])] at hres
    cases hres

/-- C1 witness: in the spec's example 3 scenario the winning $10 bet out of a $40 UP
pool with a $110 total pool receives 27.5. -/
theorem winning_bet_gets_pool_share_witness :
    resolveTargetMarket c1State (some 71000) 7 = .ok c1Resolved ∧
    c1State.market.status = .active ∧
    c1State.bets[0]? = some (mkActiveBet 1 .UP 10 2) ∧
    (mkActiveBet 1 .UP 10 2).bstatus = .active ∧
    c1Resolved.market.winningOutcome = some (mkActiveBet 1 .UP 10 2).outcome ∧
    c1Resolved.bets[0]? = some { mkActiveBet 1 .UP 10 2 with
      bstatus := .won, resolvedAt := some 7, actualPayout := some (55/2) } := by
  have hres : resolveTargetMarket c1State (some 71000) 7 = .ok c1Resolved := rfl
  have hout : c1Resolved.market.winningOutcome = some (mkActiveBet 1 .UP 10 2).outcome := rfl
  refine ⟨hres, rfl, rfl, rfl, hout, ?_⟩
  have h := winning_bet_gets_pool_share c1State (some 71000) 7 c1Resolved 0
    (mkActiveBet 1 .UP 10 2) hres rfl rfl rfl hout
  rw [h]
  simp only [mkActiveBet, c1State, baseTargetMarket, outcomeVolume]
  norm_num

/-! ## Claims C2 and C6: re-running settlement -/

/-- `resolve_target_market` on a market that is not active logs a warning and returns
without touching anything. -/
theorem resolve_nonactive_noop (s : St) (feed : Option ℚ) (now : ℤ)
    (h : s.market.status ≠ .active) :
    resolveTargetMarket s feed now = .ok s := by
  unfold resolveTargetMarket
  rw [if_pos h]

/-- After an interrupted settlement of an active target market the market row is
already saved as resolved (the source saves it before the bet loops). -/
theorem resolveUpTo_market_resolved (s : St) (feed : Option ℚ) (now : ℤ) (k : ℕ)
    (mid : St)
    (hact : s.market.status = .active) (ht : s.market.marketType = .target)
    (hmid : resolveTargetMarketUpTo s feed now k = .ok mid) :
    mid.market.status = .resolved := by
  unfold resolveTargetMarketUpTo at hmid
  rw [if_neg (by simp [hact]), if_neg (by simp [ht])] at hmid
  injection hmid with h
  subst h
  rfl

/-- C2: resolving a market twice produces the same final state as resolving it once.
The second call observes that the status is no longer `active` and returns as a no-op
before touching any bet, balance or ledger entry, so winners are paid exactly once. -/
theorem resolve_twice_idempotent (s : St) (feed1 feed2 : Option ℚ) (now1 now2 : ℤ)
    (s' : St) (h : resolveTargetMarket s feed1 now1 = .ok s') :
    resolveTargetMarket s' feed2 now2 = .ok s' := by
  by_cases hact : s.market.status = .active
  · by_cases ht : s.market.marketType = .target
    · obtain ⟨w, hp, hwdef, hok⟩ := resolveTargetMarket_ok_spec s feed1 now1 hact ht
      rw [h] at hok
      injection hok with hs'
      subst hs'
      exact resolve_nonactive_noop _ feed2 now2 (by simp)
    · unfold resolveTargetMarket at h
      rw [if_neg (by simp [hact]), if_pos (by simp [ht])] at h
      cases h
  · rw [resolve_nonactive_noop s feed1 now1 hact] at h
    injection h with hs'
    subst hs'
    exact resolve_nonactive_noop s feed2 now2 hact

/-- C2 witness: resolving the example market a second time (even with a different
price feed and clock) returns the once-resolved state unchanged. -/
theorem resolve_twice_idempotent_witness :
    resolveTargetMarket c1State (some 71000) 7 = .ok c1Resolved ∧
    resolveTargetMarket c1Resolved none 9 = .ok c1Resolved :=
  ⟨rfl, resolve_twice_idempotent c1State (some 71000) none 7 9 c1Resolved rfl⟩

/-- The state left by a settlement of `c1State` that crashed after paying the first
winning bet: the market row is saved resolved, bet 0 is won and paid, bet 1 is still
active and unpaid. -/
def c6Mid : St :=
  match resolveTargetMarketUpTo c1State (some 71000) 7 1 with
  | .ok t => t
  | .error _ => c1State

/-- C6 counterexample: after a settlement interrupted between the first and second
winning bet, re-running `resolve_target_market` is a no-op (the market status is
already `resolved`), so the still-active winning bet 1 is never paid — the claim that
the re-attempt completes the payout of all winners fails on this input. -/
theorem interrupted_settlement_rerun_counterexample :
    resolveTargetMarketUpTo c1State (some 71000) 7 1 = .ok c6Mid ∧
    c6Mid.market.status = .resolved ∧
    c6Mid.bets[0]?.map Bet.bstatus = some .won ∧
    c6Mid.bets[1]?.map Bet.bstatus = some .active ∧
    resolveTargetMarket c6Mid (some 71000) 8 = .ok c6Mid ∧
    c6Mid.bets[1]?.map Bet.actualPayout = some none :=
  ⟨rfl, rfl, rfl, rfl, rfl, rfl⟩

/-- C6 (amended): each bet is acted on only while `status == active`, so a re-run
never pays any bet twice — but only because the re-run after an interrupted
settlement is a complete no-op (the market row was saved `resolved` before the bet
loops), which also means the remaining active winning bets are not paid either. -/
theorem interrupted_settlement_rerun_noop (s : St) (feed1 feed2 : Option ℚ)
    (now1 now2 : ℤ) (k : ℕ) (mid : St)
    (hact : s.market.status = .active) (ht : s.market.marketType = .target)
    (hmid : resolveTargetMarketUpTo s feed1 now1 k = .ok mid) :
    resolveTargetMarket mid feed2 now2 = .ok mid :=
  resolve_nonactive_noop mid feed2 now2
    (by rw [resolveUpTo_market_resolved s feed1 now1 k mid hact ht hmid]; simp)

/-- C6 amended-claim witness: the no-op re-run applied to the concrete interrupted
state. -/
theorem interrupted_settlement_rerun_noop_witness :
    c1State.market.status = .active ∧
    c1State.market.marketType = .target ∧
    resolveTargetMarketUpTo c1State (some 71000) 7 1 = .ok c6Mid ∧
    resolveTargetMarket c6Mid none 9 = .ok c6Mid :=
  ⟨rfl, rfl, rfl,
    interrupted_settlement_rerun_noop c1State (some 71000) none 7 9 1 c6Mid rfl rfl rfl⟩

/-! ## Claim C5: outcome determination at resolution -/

/-- The state produced by resolving `c1State` while the price feed returns nothing. -/
def c5Res : St :=
  match resolveTargetMarket c1State none 7 with
  | .ok t => t
  | .error _ => c1State

/-- C5: evaluation of the code at the failing input.  The market's persisted
high-water mark ($71000) is at or above the target ($70000), so by the first-touch
rule the resolution should be UP regardless of the price feed; but when the fresh
price read inside `resolve_target_market` returns nothing, `check_target_reached`
returns `(False, None)` and the market is permanently resolved DOWN, marking the
touched-target UP bets lost. -/
theorem deadline_resolution_requires_fresh_feed :
    c1State.market.highestPriceReached = some 71000 ∧
    c1State.market.targetPrice = 70000 ∧
    c1State.market.status = .active ∧
    resolveTargetMarket c1State none 7 = .ok c5Res ∧
    c5Res.market.status = .resolved ∧
    c5Res.market.winningOutcome = some .DOWN ∧
    c5Res.bets[0]?.map Bet.bstatus = some .lost :=
  ⟨rfl, rfl, rfl, rfl, rfl, rfl, rfl⟩

/-! ## Claim C3: ledger replay and the level-up bonus -/

theorem replayBalance_append (txns new : List Txn) (uid : UserId) :
    replayBalance (txns ++ new) uid = replayBalance txns uid + replayBalance new uid := by
  simp [replayBalance, List.filter_append]

theorem replayBalance_single (t : Txn) (uid : UserId) :
    replayBalance [t] uid
      = if t.userId = uid ∧ t.tstatus = .completed then t.amount else 0 := by
  by_cases h : t.userId = uid ∧ t.tstatus = .completed <;>
    simp [replayBalance, List.filter, h]

/-- `add_xp` moves the balance by exactly $10 per level gained and by nothing
otherwise. -/
theorem addXp_balance_level (u : User) (a : ℤ) :
    (addXp u a).balance - 10 * (((addXp u a).level - 1 : ℤ) : ℚ)
      = u.balance - 10 * ((u.level - 1 : ℤ) : ℚ) := by
  by_cases h : u.xp + a ≥ u.level * 600 ∧ u.level < 8
  · simp only [addXp, if_pos h]
    push_cast
    ring
  · simp only [addXp, if_neg h]

/-- The ledger-replay invariant, adjusted for the unledgered level-up bonus: every
balance equals the replay of that user's completed entries plus $10 per level gained
since registration (accounts start at level 1). -/
def reconInv (s : St) : Prop :=
  ∀ uid, (s.users uid).balance
    = replayBalance s.txns uid + 10 * (((s.users uid).level - 1 : ℤ) : ℚ)

set_option maxHeartbeats 1600000 in
theorem reconInv_placeBet (s : St) (uid : UserId) (o : Outcome) (a : ℚ)
    (bt : BetType) (tf : Timeframe) (s' : St)
    (h : placeBet s uid o a bt tf = .ok s') (hinv : reconInv s) : reconInv s' := by
  unfold placeBet at h
  split_ifs at h <;> try exact Except.noConfusion h
  all_goals (
    injection h with hs'
    subst hs'
    intro u
    dsimp only
    rw [replayBalance_append, replayBalance_single]
    by_cases hu : u = uid
    · simp only [hu, eq_self_iff_true, and_self, if_true]
      rw [hinv uid]
      ring
    · rw [if_neg hu, if_neg (fun hc => hu hc.1.symm), hinv u]
      ring)

theorem reconInv_deposit (s : St) (uid : UserId) (a : ℚ)
    (hinv : reconInv s) : reconInv (depositConfirmed s uid a) := by
  intro u
  unfold depositConfirmed
  dsimp only
  rw [replayBalance_append, replayBalance_single]
  by_cases hu : u = uid
  · simp only [hu, eq_self_iff_true, and_self, if_true]
    have hx := addXp_balance_level
      { s.users uid with balance := (s.users uid).balance + a } (min ⌊a / 5⌋ 200)
    rw [sub_eq_iff_eq_add] at hx
    rw [hx]
    dsimp only
    rw [hinv uid]
    ring
  · rw [if_neg hu, if_neg (fun hc => hu hc.1.symm), hinv u]
    ring

theorem payWinners_recon (w : Outcome) (wp tp : ℚ) (now : ℤ) (bets : List Bet) :
    ∀ (users : UserId → User) (txns : List Txn),
      (∀ u, (users u).balance
        = replayBalance txns u + 10 * (((users u).level - 1 : ℤ) : ℚ)) →
      ∀ u, ((payWinners w wp tp now bets users txns).2.1 u).balance
        = replayBalance (payWinners w wp tp now bets users txns).2.2 u
          + 10 * ((((payWinners w wp tp now bets users txns).2.1 u).level - 1 : ℤ) : ℚ) := by
  induction bets with
  | nil => intro users txns hinv u; exact hinv u
  | cons b rest ih =>
    intro users txns hinv u
    by_cases hb : b.bstatus = .active ∧ b.outcome = w
    · simp only [payWinners, if_pos hb]
      refine ih _ _ ?_ u
      intro v
      dsimp only
      rw [replayBalance_append, replayBalance_single]
      by_cases hv : v = b.userId
      · simp only [hv, eq_self_iff_true, and_self, if_true]
        have hx := addXp_balance_level
          { users b.userId with balance := (users b.userId).balance +
              (if wp > 0 then b.amount / wp * tp else b.potentialPayout) } 50
        rw [sub_eq_iff_eq_add] at hx
        rw [hx]
        dsimp only
        rw [hinv b.userId]
        ring
      · rw [if_neg hv, if_neg (fun hc => hv hc.1.symm), hinv v]
        ring
    · simp only [payWinners, if_neg hb]
      exact ih _ _ hinv u

theorem reconInv_resolve (s : St) (feed : Option ℚ) (now : ℤ) (s' : St)
    (h : resolveTargetMarket s feed now = .ok s') (hinv : reconInv s) : reconInv s' := by
  unfold resolveTargetMarket at h
  by_cases hact : s.market.status = .active
  · rw [if_neg (by simp [hact])] at h
    by_cases ht : s.market.marketType = .target
    · rw [if_neg (by simp [ht])] at h
      injection h with hs'
      subst hs'
      intro u
      exact payWinners_recon _ _ _ _ s.bets s.users s.txns hinv u
    · rw [if_pos (by simp [ht])] at h
      exact Except.noConfusion h
  · rw [if_pos (by simp [hact])] at h
    injection h with hs'
    subst hs'
    exact hinv

theorem reconInv_execOp (s : St) (op : Op) (hinv : reconInv s) : reconInv (execOp s op) := by
  cases op with
  | deposit uid a => exact reconInv_deposit s uid a hinv
  | bet uid o a bt tf =>
    simp only [execOp]
    cases h : placeBet s uid o a bt tf with
    | ok s' => exact reconInv_placeBet s uid o a bt tf s' h hinv
    | error e => exact hinv
  | resolve feed now =>
    simp only [execOp]
    cases h : resolveTargetMarket s feed now with
    | ok s' => exact reconInv_resolve s feed now s' h hinv
    | error e => exact hinv

theorem reconInv_execTrace (s : St) (ops : List Op) (hinv : reconInv s) :
    reconInv (execTrace s ops) := by
  induction ops generalizing s with
  | nil => exact hinv
  | cons op rest ih => exact ih (execOp s op) (reconInv_execOp s op hinv)

/-- C3 (amended): for any history of deposit completions, bet placements and
target-market settlements starting from a fresh database, a user's balance equals the
replay of that user's completed ledger entries from 0 **plus $10 for every level the
user has gained**: the level-up bonus in `CustomUser.add_xp` credits the balance with
no ledger entry, so replay alone under-counts by exactly $10 per level-up. -/
theorem ledger_replay_with_levelup_bonus (m : Market) (ops : List Op) (uid : UserId) :
    ((execTrace (initSt m) ops).users uid).balance
      = replayBalance (execTrace (initSt m) ops).txns uid
        + 10 * ((((execTrace (initSt m) ops).users uid).level - 1 : ℤ) : ℚ) :=
  reconInv_execTrace (initSt m) ops (fun _ => by simp [initSt, replayBalance]) uid

/-- An already-touched target market with empty pools, for the C3 counterexample. -/
def c3Market : Market := { baseTargetMarket with highestPriceReached := some 71000 }

/-- Two $1000 deposits (200 xp each), three $50 UP bets (50 xp each), then
settlement: the first payout's 50 xp award crosses the 600-xp threshold and add_xp
credits a $10 level-up bonus with no ledger entry. -/
def c3Trace : List Op :=
  [.deposit 0 1000, .deposit 0 1000,
   .bet 0 .UP 50 .regular .other, .bet 0 .UP 50 .regular .other,
   .bet 0 .UP 50 .regular .other,
   .resolve (some 71000) 9]

/-- The final state of the C3 counterexample history. -/
def c3Final : St := execTrace (initSt c3Market) c3Trace

set_option maxHeartbeats 4000000 in
/-- C3 counterexample: after the history above the user's balance is $2010 but the
replay of the user's completed ledger entries from 0 gives $2000 — the $10 level-up
bonus granted during settlement never hits the ledger, so reconciliation fails. -/
theorem ledger_replay_counterexample :
    (c3Final.users 0).balance = 2010 ∧
    replayBalance c3Final.txns 0 = 2000 ∧
    (c3Final.users 0).balance ≠ replayBalance c3Final.txns 0 := by
  refine ⟨?_, ?_, ?_⟩ <;>
    norm_num +decide [c3Final, c3Trace, c3Market, execTrace, execOp, initSt,
      depositConfirmed, placeBet, resolveTargetMarket, checkTargetReached, payWinners,
      markLosers, markLoserBet, addXp, baseTargetMarket, outcomeOdds, Market.upOdds,
      Market.upProbability, quickMultiplier, replayBalance]

/-! ## Claim C4: the per-entry balance equation -/

/-- The ledger entries appended by the winner loop all satisfy the balance equation
(and none of them is a fee entry). -/
theorem payWinners_txns_balanced (w : Outcome) (wp tp : ℚ) (now : ℤ) (bets : List Bet) :
    ∀ (users : UserId → User) (txns : List Txn),
      (∀ t ∈ txns, t.ttype ≠ TxnType.fee → txnBalanced t) →
      ∀ t ∈ (payWinners w wp tp now bets users txns).2.2,
        t.ttype ≠ TxnType.fee → txnBalanced t := by
  induction bets with
  | nil => intro users txns hp t ht; exact hp t ht
  | cons b rest ih =>
    intro users txns hp t ht
    by_cases hb : b.bstatus = .active ∧ b.outcome = w
    · simp only [payWinners, if_pos hb] at ht
      refine ih _ _ ?_ t ht
      intro t' ht'
      rw [List.mem_append] at ht'
      rcases ht' with ht' | ht'
      · exact hp t' ht'
      · rw [List.mem_singleton] at ht'
        subst ht'
        intro _
        rfl
    · simp only [payWinners, if_neg hb] at ht
      exact ih _ _ hp t ht

set_option maxHeartbeats 4000000 in
set_option linter.unnecessarySeqFocus false in
/-- C4 (amended): every ledger entry created by the core operations — the bet debit,
the payout credit, the deposit completion, and the withdrawal's pending/completed,
failed and refund entries — satisfies `balance_after == balance_before + amount`, with
the single exception of the withdrawal platform-fee entry, which records the positive
fee amount while `balance_before == balance_after`. -/
theorem ledger_entries_balanced_except_fee (s : St)
    (h : ∀ t ∈ s.txns, t.ttype ≠ TxnType.fee → txnBalanced t) :
    (∀ uid o a bt tf s', placeBet s uid o a bt tf = .ok s' →
      ∀ t ∈ s'.txns, t.ttype ≠ TxnType.fee → txnBalanced t) ∧
    (∀ uid a, ∀ t ∈ (depositConfirmed s uid a).txns,
      t.ttype ≠ TxnType.fee → txnBalanced t) ∧
    (∀ feed now s', resolveTargetMarket s feed now = .ok s' →
      ∀ t ∈ s'.txns, t.ttype ≠ TxnType.fee → txnBalanced t) ∧
    (∀ uid a mn fp nf aok sok s', walletWithdraw s uid a mn fp nf aok sok = .ok s' →
      ∀ t ∈ s'.txns, t.ttype ≠ TxnType.fee → txnBalanced t) := by
  refine ⟨?_, ?_, ?_, ?_⟩
  · intro uid o a bt tf s' hok t ht
    unfold placeBet at hok
    split_ifs at hok <;> try exact Except.noConfusion hok
    all_goals (
      injection hok with hs'
      subst hs'
      rw [List.mem_append] at ht
      rcases ht with ht | ht
      · exact h t ht
      · rw [List.mem_singleton] at ht
        subst ht
        intro _
        show _ = _ + _
        ring)
  · intro uid a t ht
    unfold depositConfirmed at ht
    rw [List.mem_append] at ht
    rcases ht with ht | ht
    · exact h t ht
    · rw [List.mem_singleton] at ht
      subst ht
      intro _
      rfl
  · intro feed now s' hok t ht
    unfold resolveTargetMarket at hok
    by_cases hact : s.market.status = .active
    · rw [if_neg (by simp [hact])] at hok
      by_cases hmt : s.market.marketType = .target
      · rw [if_neg (by simp [hmt])] at hok
        injection hok with hs'
        subst hs'
        exact payWinners_txns_balanced _ _ _ _ s.bets s.users s.txns h t ht
      · rw [if_pos (by simp [hmt])] at hok
        exact Except.noConfusion hok
    · rw [if_pos (by simp [hact])] at hok
      injection hok with hs'
      subst hs'
      exact h t ht
  · intro uid a mn fp nf aok sok s' hok t ht
    unfold walletWithdraw at hok
    split_ifs at hok <;> try exact Except.noConfusion hok
    all_goals (
      dsimp only at hok
      split_ifs at hok <;> try exact Except.noConfusion hok
      injection hok with hs'
      subst hs'
      rw [List.mem_append] at ht
      rcases ht with ht | ht
      · exact h t ht
      · simp only [List.mem_cons, List.not_mem_nil, or_false] at ht
        rcases ht with rfl | rfl
        · intro _
          show _ = _ + _
          ring
        · intro hfee
          first
          | exact absurd rfl hfee
          | (show _ = _ + _; ring))

/-- The base state for the C4 counterexample: one user with a $100 balance. -/
def c4State : St :=
  { users := fun _ => mkUser 100, market := baseTargetMarket, bets := [], txns := [] }

/-- The state after a successful $50 withdrawal at a 2% platform fee and a $1 network
fee: a completed withdrawal entry followed by a completed fee entry. -/
def c4Res : St :=
  match walletWithdraw c4State 0 50 1 (2/100) 1 true true with
  | .ok t => t
  | .error _ => c4State

/-- C4 counterexample: the platform-fee ledger entry written by a successful
withdrawal records `amount = +1` (2% of $50) with `balance_before = balance_after
= 50`, so `balance_after = balance_before + amount` fails for a core-operation
entry. -/
theorem fee_entry_violates_balance_equation :
    walletWithdraw c4State 0 50 1 (2/100) 1 true true = .ok c4Res ∧
    c4Res.txns[1]?.map Txn.ttype = some .fee ∧
    c4Res.txns[1]?.map Txn.tstatus = some .completed ∧
    c4Res.txns[1]?.map Txn.amount = some 1 ∧
    c4Res.txns[1]?.map Txn.balanceBefore = some 50 ∧
    c4Res.txns[1]?.map Txn.balanceAfter = some 50 ∧
    ¬ (∀ t ∈ c4Res.txns, txnBalanced t) := by
  refine ⟨?_, ?_, ?_, ?_, ?_, ?_, ?_⟩ <;>
    norm_num +decide [c4Res, c4State, walletWithdraw, mkUser, txnBalanced]

/-- C4 witness: the amended statement applied to the concrete withdrawal run — every
non-fee entry it writes satisfies the balance equation. -/
theorem ledger_entries_balanced_except_fee_witness :
    (∀ t ∈ c4State.txns, t.ttype ≠ TxnType.fee → txnBalanced t) ∧
    (∀ t ∈ c4Res.txns, t.ttype ≠ TxnType.fee → txnBalanced t) :=
  ⟨by simp [c4State], by
    have hres : walletWithdraw c4State 0 50 1 (2/100) 1 true true = .ok c4Res := by
      norm_num [walletWithdraw, c4State, c4Res, mkUser]
    exact (ledger_entries_balanced_except_fee c4State (by simp [c4State])).2.2.2
      0 50 1 (2/100) 1 true true c4Res hres⟩

/-! ## Claim C7: pool conservation -/

theorem wonPayoutSum_cons (x : Bet) (l : List Bet) :
    wonPayoutSum (x :: l)
      = (if x.bstatus = .won then x.actualPayout.getD 0 else 0) + wonPayoutSum l := by
  by_cases h : x.bstatus = .won <;> simp [wonPayoutSum, List.filter_cons, h]

theorem activeOutcomeAmountSum_cons (x : Bet) (l : List Bet) (w : Outcome) :
    activeOutcomeAmountSum (x :: l) w
      = (if x.bstatus = .active ∧ x.outcome = w then x.amount else 0)
        + activeOutcomeAmountSum l w := by
  by_cases h : x.bstatus = .active ∧ x.outcome = w <;>
    simp [activeOutcomeAmountSum, List.filter_cons, h]

/-- The contribution of a single not-yet-won bet to the won-payout sum after the
winner and loser passes. -/
theorem settledContribution (w : Outcome) (wp tp : ℚ) (now : ℤ) (b : Bet)
    (hwp : wp > 0) (hb : b.bstatus ≠ .won) :
    (if (markLoserBet w now (payBet w wp tp now b)).bstatus = .won
      then (markLoserBet w now (payBet w wp tp now b)).actualPayout.getD 0 else 0)
    = (if b.bstatus = .active ∧ b.outcome = w then b.amount else 0) * (tp / wp) := by
  by_cases hw : b.bstatus = .active ∧ b.outcome = w
  · simp only [payBet, markLoserBet, hw, hwp, if_true, and_true, if_pos]
    simp [hw]
    ring
  · by_cases hl : b.bstatus = .active ∧ b.outcome ≠ w
    · simp [payBet, markLoserBet, hw, hl]
    · simp [payBet, markLoserBet, hw, hl, hb]

/-- After the winner and loser passes over a bet list containing no already-won bets,
the payouts of the bets now marked won sum to the active winning stake times
`total_pool / winning_pool`. -/
theorem wonPayoutSum_settled (w : Outcome) (wp tp : ℚ) (now : ℤ)
    (bets : List Bet) (hwp : wp > 0) (hnw : ∀ b ∈ bets, b.bstatus ≠ .won) :
    wonPayoutSum ((bets.map (payBet w wp tp now)).map (markLoserBet w now))
      = activeOutcomeAmountSum bets w * (tp / wp) := by
  induction bets with
  | nil => simp [wonPayoutSum, activeOutcomeAmountSum]
  | cons b rest ih =>
    have hrest : ∀ x ∈ rest, x.bstatus ≠ .won := fun x hx => hnw x (List.mem_cons_of_mem b hx)
    have hb := hnw b (List.mem_cons_self b rest)
    simp only [List.map_cons]
    rw [wonPayoutSum_cons, activeOutcomeAmountSum_cons, ih hrest, add_mul,
      settledContribution w wp tp now b hwp hb]

/-- C7 (amended): for a resolved target market whose bets were all still unresolved
at settlement, if the winning-pool volume is positive and the stakes of the active
bets on the winning outcome sum exactly to that pooled volume (as they do when every
winning bet is a regular bet, since only regular bets feed the pool), then the
payouts of the bets marked won sum exactly to the market's total volume.  Without
that stake-accounting hypothesis the sum can exceed `total_volume`, because
quick-predict bets are paid from the pool formula without having been counted in
the pool (see the counterexample). -/
theorem pool_conservation_for_pooled_stakes (s : St) (feed : Option ℚ) (now : ℤ)
    (s' : St) (w : Outcome)
    (hres : resolveTargetMarket s feed now = .ok s')
    (hact : s.market.status = .active)
    (hout : s'.market.winningOutcome = some w)
    (hnw : ∀ b ∈ s.bets, b.bstatus ≠ .won)
    (hpos : 0 < outcomeVolume s.market w)
    (hsum : activeOutcomeAmountSum s.bets w = outcomeVolume s.market w) :
    wonPayoutSum s'.bets = s.market.totalVolume := by
  by_cases ht : s.market.marketType = .target
  · obtain ⟨w', hp, hwdef, hok⟩ := resolveTargetMarket_ok_spec s feed now hact ht
    rw [hres] at hok
    injection hok with hs'
    subst hs'
    have hw : w' = w := by simpa using hout
    subst hw
    simp only [markLosers]
    rw [wonPayoutSum_settled w' (outcomeVolume s.market w') s.market.totalVolume now
      s.bets hpos hnw]
    rw [hsum]
    field_simp
  · unfold resolveTargetMarket at hres
    rw [if_neg (by simp [hact]), if_pos (by simp [ht])] at hres
    cases hres

/-- A target market whose pools hold $10 UP and $10 DOWN from regular bets, already
touched, plus a $1 quick-predict UP bet that was never added to any pool. -/
def c7State : St :=
  { users := fun _ => mkUser 0,
    market := { baseTargetMarket with
      totalVolume := 20, upVolume := 10, downVolume := 10,
      highestPriceReached := some 71000 },
    bets := [mkActiveBet 1 .UP 10 2, mkActiveBet 2 .DOWN 10 2,
             { mkActiveBet 3 .UP 1 2 with betType := .quick }],
    txns := [] }

/-- `c7State` resolved with the target touched. -/
def c7Res : St :=
  match resolveTargetMarket c7State (some 71000) 7 with
  | .ok t => t
  | .error _ => c7State

/-- C7 counterexample: the quick-predict UP bet is paid `(1/10)*20 = 2` from the same
pool formula even though its stake was never added to the pool, so the payouts of the
won bets sum to $22 while the market's total volume is only $20 — the claimed
`Σ actual_payout ≤ total_volume` fails. -/
theorem pool_conservation_counterexample :
    resolveTargetMarket c7State (some 71000) 7 = .ok c7Res ∧
    c7Res.market.winningOutcome = some .UP ∧
    0 < outcomeVolume c7State.market .UP ∧
    wonPayoutSum c7Res.bets = 22 ∧
    c7Res.market.totalVolume = 20 ∧
    ¬ wonPayoutSum c7Res.bets ≤ c7Res.market.totalVolume := by
  refine ⟨rfl, rfl, by norm_num [outcomeVolume, c7State, baseTargetMarket], ?_, rfl, ?_⟩ <;>
    norm_num +decide [c7Res, c7State, baseTargetMarket, mkActiveBet, mkUser,
      resolveTargetMarket, checkTargetReached, payWinners, markLosers, markLoserBet,
      addXp, wonPayoutSum, outcomeVolume]

/-- `c7State` with only its two regular bets, whose stakes match the pools. -/
def c7wState : St :=
  { c7State with bets := [mkActiveBet 1 .UP 10 2, mkActiveBet 2 .DOWN 10 2] }

/-- `c7wState` resolved with the target touched. -/
def c7wRes : St :=
  match resolveTargetMarket c7wState (some 71000) 7 with
  | .ok t => t
  | .error _ => c7wState

/-- C7 witness: with only the two regular bets (stakes equal to the pools), the won
payouts sum exactly to the total volume. -/
theorem pool_conservation_witness :
    resolveTargetMarket c7wState (some 71000) 7 = .ok c7wRes ∧
    c7wRes.market.winningOutcome = some Outcome.UP ∧
    (∀ b ∈ c7wState.bets, b.bstatus ≠ .won) ∧
    0 < outcomeVolume c7wState.market .UP ∧
    activeOutcomeAmountSum c7wState.bets .UP = outcomeVolume c7wState.market .UP ∧
    wonPayoutSum c7wRes.bets = c7wState.market.totalVolume := by
  have hres : resolveTargetMarket c7wState (some 71000) 7 = .ok c7wRes := rfl
  have hout : c7wRes.market.winningOutcome = some Outcome.UP := rfl
  have hnw : ∀ b ∈ c7wState.bets, b.bstatus ≠ .won := by
    intro b hb
    simp only [c7wState, c7State, List.mem_cons, List.not_mem_nil, or_false] at hb
    rcases hb with rfl | rfl <;> simp [mkActiveBet]
  have hpos : 0 < outcomeVolume c7wState.market .UP := by
    norm_num [outcomeVolume, c7wState, c7State, baseTargetMarket]
  have hsum : activeOutcomeAmountSum c7wState.bets .UP = outcomeVolume c7wState.market .UP := by
    norm_num +decide [activeOutcomeAmountSum, outcomeVolume, c7wState, c7State,
      baseTargetMarket, mkActiveBet]
  exact ⟨hres, hout, hnw, hpos, hsum,
    pool_conservation_for_pooled_stakes c7wState (some 71000) 7 c7wRes .UP
      hres rfl hout hnw hpos hsum⟩

/-! ## Claim C8: odds derivation -/

/-- A market with $60 UP, $40 DOWN, $100 total, and a bettor holding $100. -/
def c8State : St :=
  { users := fun _ => mkUser 100,
    market := { baseTargetMarket with
      marketType := .price, totalVolume := 100, upVolume := 60, downVolume := 40 },
    bets := [], txns := [] }

/-- `c8State` after a $10 regular DOWN bet. -/
def c8Res : St :=
  match placeBet c8State 1 .DOWN 10 .regular .other with
  | .ok t => t
  | .error _ => c8State

/-- C8: on a market with positive total volume, every outcome with a positive pooled
volume has `probability = outcome_volume / total_volume` and
`odds = min(1 / probability, 100)`; moreover, in the spec's example 2 a $10 DOWN bet
on a 60/40 market locks odds `100/40 = 2.5` and moves the pools to DOWN:50,
total:110. -/
theorem odds_from_pool (m : Market) (o : Outcome)
    (h1 : 0 < m.totalVolume) (h2 : 0 < outcomeVolume m o) :
    (outcomeProbability m o = outcomeVolume m o / m.totalVolume ∧
     outcomeOdds m o = min (1 / outcomeProbability m o) 100) ∧
    (placeBet c8State 1 .DOWN 10 .regular .other = .ok c8Res ∧
     c8Res.bets[0]?.map Bet.oddsAtBet = some (5/2) ∧
     c8Res.market.downVolume = 50 ∧
     c8Res.market.totalVolume = 110) := by
  have hne : m.totalVolume ≠ 0 := ne_of_gt h1
  have hprob : outcomeProbability m o = outcomeVolume m o / m.totalVolume := by
    cases o <;>
      simp [outcomeProbability, outcomeVolume, Market.upProbability,
        Market.downProbability, Market.flatProbability, hne]
  have hp0 : outcomeProbability m o ≠ 0 := by
    rw [hprob]
    exact div_ne_zero (ne_of_gt h2) hne
  refine ⟨⟨hprob, ?_⟩, ?_, ?_, ?_, ?_⟩
  · cases o <;>
      simp only [outcomeOdds, Market.upOdds, Market.downOdds, Market.flatOdds] <;>
      rw [if_neg (by simpa [outcomeProbability] using hp0)] <;>
      rfl
  all_goals
    norm_num +decide [c8Res, c8State, placeBet, baseTargetMarket, mkUser, outcomeOdds,
      Market.downOdds, Market.downProbability, quickMultiplier]

/-- C8 witness: the general statement applied to the DOWN outcome of the 60/40
market, where the probability is 40/100 and the locked odds are 5/2. -/
theorem odds_from_pool_witness :
    (0 < c8State.market.totalVolume ∧ 0 < outcomeVolume c8State.market .DOWN) ∧
    (outcomeProbability c8State.market .DOWN
        = outcomeVolume c8State.market .DOWN / c8State.market.totalVolume ∧
     outcomeOdds c8State.market .DOWN
        = min (1 / outcomeProbability c8State.market .DOWN) 100) ∧
    placeBet c8State 1 .DOWN 10 .regular .other = .ok c8Res := by
  have h1 : 0 < c8State.market.totalVolume := by
    norm_num [c8State, baseTargetMarket]
  have h2 : 0 < outcomeVolume c8State.market .DOWN := by
    norm_num [c8State, baseTargetMarket, outcomeVolume]
  have h := odds_from_pool c8State.market .DOWN h1 h2
  exact ⟨⟨h1, h2⟩, h.1, h.2.1⟩

/-! ## Claim C9: bet-placement validation -/

/-- An active market whose `resolution_date` (5) is already in the past and whose
`max_bet` is $10000, with a bettor holding $30000. -/
def c9State : St :=
  { users := fun _ => mkUser 30000,
    market := { baseTargetMarket with resolutionDate := 5 },
    bets := [], txns := [] }

/-- `c9State` after a $20000 regular UP bet. -/
def c9Res : St :=
  match placeBet c9State 0 .UP 20000 .regular .other with
  | .ok t => t
  | .error _ => c9State

/-- C9 counterexample: a $20000 bet — twice the market's `max_bet` — on a market
whose `resolution_date` has already passed is accepted: the balance is debited, a bet
and a ledger entry are created and the pool grows.  `place_bet` never reads
`max_bet`, `min_bet` or the clock (it only requires `status == 'active'`), so neither
claimed rejection happens. -/
theorem bet_validation_gaps_counterexample :
    c9State.market.maxBet = 10000 ∧
    c9State.market.resolutionDate = 5 ∧
    (c9State.users 0).balance = 30000 ∧
    placeBet c9State 0 .UP 20000 .regular .other = .ok c9Res ∧
    (c9Res.users 0).balance = 10000 ∧
    c9Res.bets.length = 1 ∧
    c9Res.market.totalVolume = 20000 ∧
    c9Res.txns.length = 1 := by
  refine ⟨?_, rfl, ?_, rfl, ?_, rfl, ?_, rfl⟩ <;>
    norm_num +decide [c9Res, c9State, placeBet, baseTargetMarket, mkUser,
      outcomeOdds, Market.upOdds, Market.upProbability]

/-- C9 (amended): the validations `place_bet` does perform — amount below the
hardcoded $1.00 minimum (a zero amount trips the missing-fields check first),
insufficient balance, and market not active — reject the regular bet with a typed
error, and every rejection happens before the atomic block, so the state is
untouched.  Amount above `max_bet` and a passed `resolution_date` are not checked. -/
theorem bet_validation_rejections (s : St) (uid : UserId) (o : Outcome) (a : ℚ)
    (tf : Timeframe)
    (h : a < 1 ∨ (s.users uid).balance < a ∨ s.market.status ≠ .active) :
    ∃ e, placeBet s uid o a .regular tf = .error e := by
  unfold placeBet
  by_cases h0 : a = 0
  · exact ⟨_, by rw [if_pos h0]⟩
  rw [if_neg h0, if_neg (by simp), if_neg (by simp)]
  by_cases h1 : a < 1
  · exact ⟨_, by rw [if_pos ⟨rfl, h1⟩]⟩
  rw [if_neg (by simp [h1])]
  by_cases h2 : a > (s.users uid).balance
  · exact ⟨_, by rw [if_pos h2]⟩
  rw [if_neg h2]
  by_cases h3 : s.market.status ≠ .active
  · exact ⟨_, by rw [if_pos h3]⟩
  exfalso
  rcases h with h | h | h
  · exact h1 h
  · exact absurd h (not_lt.mpr (not_lt.mp h2))
  · exact h3 h

/-- A bettor with a $5 balance on an active market. -/
def c9wState : St :=
  { users := fun _ => mkUser 5, market := baseTargetMarket, bets := [], txns := [] }

/-- C9 witness: the $10 bet of spec scenario 4 against a $5 balance is rejected. -/
theorem bet_validation_rejections_witness :
    ((c9wState.users 0).balance < 10) ∧
    ∃ e, placeBet c9wState 0 .UP 10 .regular .other = .error e := by
  have hb : (c9wState.users 0).balance < 10 := by norm_num [c9wState, mkUser]
  exact ⟨hb, bet_validation_rejections c9wState 0 .UP 10 .other (.inr (.inl hb))⟩

/-! ## Claim C10: quick-predict bets leave the pools untouched -/

set_option maxHeartbeats 1600000 in
/-- C10: a successful quick-predict placement debits the user by the stake and
appends an active quick bet and a completed bet ledger entry, but the market row —
including `total_volume`, `up_volume`, `down_volume` and `flat_volume` — is left
completely unchanged: only regular bets feed the pools, yet the quick bet remains an
active bet on the market with its outcome. -/
theorem quick_bet_skips_pool (s : St) (uid : UserId) (o : Outcome) (a : ℚ)
    (tf : Timeframe) (s' : St)
    (h : placeBet s uid o a .quick tf = .ok s') :
    (s'.users uid).balance = (s.users uid).balance - a ∧
    s'.market = s.market ∧
    s'.market.totalVolume = s.market.totalVolume ∧
    s'.market.upVolume = s.market.upVolume ∧
    s'.market.downVolume = s.market.downVolume ∧
    s'.market.flatVolume = s.market.flatVolume ∧
    s'.bets.length = s.bets.length + 1 ∧
    s'.bets.getLast?.map (fun b => (b.userId, b.betType, b.outcome, b.amount, b.bstatus))
      = some (uid, .quick, o, a, .active) ∧
    s'.txns.length = s.txns.length + 1 ∧
    s'.txns.getLast?.map (fun t => (t.userId, t.ttype, t.amount, t.tstatus))
      = some (uid, .bet, -a, .completed) := by
  unfold placeBet at h
  simp only [reduceIte] at h
  split_ifs at h <;> try exact Except.noConfusion h
  all_goals try exact False.elim ‹False›
  all_goals (
    injection h with hs'
    subst hs'
    refine ⟨by simp, rfl, rfl, rfl, rfl, rfl, by simp, ?_, by simp, ?_⟩ <;>
      simp [List.getLast?_concat])

/-- `c8State` after a $1 quick-predict UP bet at the 1m timeframe. -/
def c10Res : St :=
  match placeBet c8State 1 .UP 1 .quick .m1 with
  | .ok t => t
  | .error _ => c8State

/-- C10 witness: a $1 quick-predict UP bet on the 60/40 market. -/
theorem quick_bet_skips_pool_witness :
    placeBet c8State 1 .UP 1 .quick .m1 = .ok c10Res ∧
    (c10Res.users 1).balance = (c8State.users 1).balance - 1 ∧
    c10Res.market = c8State.market ∧
    c10Res.bets.getLast?.map (fun b => (b.userId, b.betType, b.outcome, b.amount, b.bstatus))
      = some (1, .quick, .UP, 1, .active) ∧
    c10Res.txns.getLast?.map (fun t => (t.userId, t.ttype, t.amount, t.tstatus))
      = some (1, .bet, -1, .completed) := by
  have hres : placeBet c8State 1 .UP 1 .quick .m1 = .ok c10Res := rfl
  have h := quick_bet_skips_pool c8State 1 .UP 1 .m1 c10Res hres
  exact ⟨hres, h.1, h.2.1, h.2.2.2.2.2.2.2.1, h.2.2.2.2.2.2.2.2.2⟩

end Eggma
